import Mathlib

set_option maxHeartbeats 1000000

/- Verification of the rag-chatbot retrieval and routing pipeline.
   Python strings are modelled as lists of Unicode code points (List Nat);
   the source functions from ingests/loaders.py, ingests/chunking.py and
   app/rag/pipeline.py are translated into executable Lean definitions. -/

/-- A Python string, as a list of code points. -/
abbrev Str := List Nat

/-- Helper turning a Lean string literal into the code-point model. -/
def pyStr (s : String) : Str := s.toList.map Char.toNat

/-- The ASCII whitespace class used by Python regex and str.strip:
space, tab, newline, carriage return, vertical tab, form feed. -/
def pyIsSpace (c : Nat) : Bool :=
  decide (c = 32 ∨ c = 9 ∨ c = 10 ∨ c = 13 ∨ c = 11 ∨ c = 12)

/-- Python str.lower on a single code point, ASCII range. -/
def pyToLower (c : Nat) : Nat := if 65 ≤ c ∧ c ≤ 90 then c + 32 else c

/-- Drop trailing whitespace, as the right half of Python str.strip. -/
def dropTrailWs : Str → Str
  | [] => []
  | c :: rest =>
    let r := dropTrailWs rest
    if r.isEmpty && pyIsSpace c then [] else c :: r

/-- Python str.strip: remove leading and trailing whitespace. -/
def pyStrip (l : Str) : Str := dropTrailWs (l.dropWhile pyIsSpace)

/-- One pass of re.sub replacing each whitespace run by a single space;
the Boolean flag records whether the previous character was whitespace. -/
def collapseAux : Bool → Str → Str
  | _, [] => []
  | prevWs, c :: rest =>
    if pyIsSpace c then
      if prevWs then collapseAux true rest
      else 32 :: collapseAux true rest
    else c :: collapseAux false rest

/-- re.sub of one or more whitespace characters by a single space. -/
def collapseWs (l : Str) : Str := collapseAux false l

/-- _source_id from ingests/loaders.py: name.strip().lower(), then
collapse of internal whitespace runs to one space. -/
def source_id (name : Str) : Str := collapseWs ((pyStrip name).map pyToLower)

/-- True when the list is empty or its first character is not whitespace. -/
def startsOk : Str → Bool
  | [] => true
  | c :: _ => !pyIsSpace c

/-- True when the list is empty or its last character is not whitespace. -/
def lastOk : Str → Bool
  | [] => true
  | [c] => !pyIsSpace c
  | _ :: rest => lastOk rest

/-- Normal form produced by collapseWs: every whitespace character is a
single space and no two consecutive characters are both whitespace. -/
def isCollapsed : Str → Bool
  | [] => true
  | [c] => !pyIsSpace c || c == 32
  | c :: d :: rest => (!pyIsSpace c || (c == 32 && !pyIsSpace d)) && isCollapsed (d :: rest)

/- ------------------------------------------------------------------ -/
/- ingests/chunking.py -/
/- ------------------------------------------------------------------ -/

/-- ASCII digit class of regex. -/
def pyIsDigit (c : Nat) : Bool := decide (48 ≤ c ∧ c ≤ 57)

/-- ASCII word-character class of regex (letters, digits, underscore). -/
def pyIsWordChar (c : Nat) : Bool :=
  decide ((48 ≤ c ∧ c ≤ 57) ∨ (65 ≤ c ∧ c ≤ 90) ∨ (97 ≤ c ∧ c ≤ 122) ∨ c = 95)

/-- Case-insensitive test that kw (given lowercase) starts the list. -/
def ciPrefixEq (kw : Str) (l : Str) : Bool :=
  decide (kw.length ≤ l.length) && (l.take kw.length).map pyToLower == kw

/-- Word boundary at the start of the remaining input: end of string or a
non word character next. -/
def boundaryAt : Str → Bool
  | [] => true
  | c :: _ => !pyIsWordChar c

/-- Anchor of a dollar sign with re.match semantics: the rest must contain
no newline, or contain exactly one newline as its last character. -/
def dollarOk (t : Str) : Bool :=
  !(t.contains 10) || (t.getLast? == some 10 && !(t.dropLast.contains 10))

/-- After the colon or period of a caption: one or more whitespace
characters, then any characters up to the line anchor, with regex
backtracking over the amount of whitespace consumed. -/
def capTail (r : Str) : Bool :=
  let w := r.takeWhile pyIsSpace
  (List.range w.length).any (fun i => dollarOk (r.drop (i + 1)))

/-- The part of the caption pattern after the keyword: whitespace, digits,
a colon or period, then the tail. -/
def capAfterKw (l : Str) : Bool :=
  let w := l.takeWhile pyIsSpace
  if w.isEmpty then false
  else
    let r := l.drop w.length
    let ds := r.takeWhile pyIsDigit
    if ds.isEmpty then false
    else
      match r.drop ds.length with
      | 58 :: rest => capTail rest
      | 46 :: rest => capTail rest
      | _ => false

/-- One alternative of the caption keyword group. -/
def capKw (kw : Str) (l : Str) : Bool := ciPrefixEq kw l && capAfterKw (l.drop kw.length)

/-- _CAPTION_RE.match of ingests/chunking.py: optional leading whitespace,
Figure or Fig. or Table (case-insensitive), whitespace, digits, colon or
period, whitespace, rest of line. -/
def captionMatch (l : Str) : Bool :=
  let l1 := l.dropWhile pyIsSpace
  capKw (pyStr "figure") l1 || capKw (pyStr "fig.") l1 || capKw (pyStr "table") l1

/-- Python str.splitlines over the ASCII line boundaries. -/
def pySplitlinesAux (acc : Str) : Str → List Str
  | [] => if acc.isEmpty then [] else [acc.reverse]
  | 13 :: 10 :: rest => acc.reverse :: pySplitlinesAux [] rest
  | c :: rest =>
    if c = 10 ∨ c = 13 ∨ c = 11 ∨ c = 12 then acc.reverse :: pySplitlinesAux [] rest
    else pySplitlinesAux (c :: acc) rest

def pySplitlines (l : Str) : List Str := pySplitlinesAux [] l

/-- Number of maximal whitespace runs of length at least two, as counted by
re.findall of two-or-more whitespace characters; the accumulator holds the
length of the current run. -/
def wsRunCount : Nat → Str → Nat
  | run, [] => if 2 ≤ run then 1 else 0
  | run, c :: rest =>
    if pyIsSpace c then wsRunCount (run + 1) rest
    else (if 2 ≤ run then 1 else 0) + wsRunCount 0 rest

/-- A line counted as tabular by _classify_block: contains a pipe or at
least two runs of multiple whitespace characters. -/
def isTabularLine (ln : Str) : Bool := ln.contains 124 || decide (2 ≤ wsRunCount 0 ln)

def sqlKw : List Str :=
  [pyStr "select", pyStr "with", pyStr "insert", pyStr "update",
   pyStr "delete", pyStr "create", pyStr "drop", pyStr "alter"]

/-- _CODE_HINT_RE.match: optional leading whitespace, one of the SQL
keywords case-insensitively, then a word boundary. -/
def codeHintMatch (ln : Str) : Bool :=
  let l1 := ln.dropWhile pyIsSpace
  sqlKw.any (fun kw => ciPrefixEq kw l1 && boundaryAt (l1.drop kw.length))

/-- ln.strip().endswith of a semicolon. -/
def pyEndsSemi (ln : Str) : Bool := (pyStrip ln).getLast? == some 59

/-- A line counted as code by _classify_block. -/
def isCodeLine (ln : Str) : Bool := codeHintMatch ln || pyEndsSemi ln

/-- The operator class of _EQUATION_HINT_RE. -/
def eqOpChar (c : Nat) : Bool := decide (c = 61 ∨ c = 43 ∨ c = 45 ∨ c = 42 ∨ c = 47)

/-- The operand class of _EQUATION_HINT_RE: word characters, parentheses
and square brackets. -/
def eqClassChar (c : Nat) : Bool :=
  pyIsWordChar c || decide (c = 40 ∨ c = 41 ∨ c = 91 ∨ c = 93)

def latexWords : List Str :=
  [pyStr "frac", pyStr "sum", pyStr "int", pyStr "alpha",
   pyStr "beta", pyStr "theta", pyStr "lambda"]

/-- _EQUATION_HINT_RE at one position: an operator then optional whitespace
and an operand character, or a backslash then a latex word. -/
def eqHintAt : Str → Bool
  | [] => false
  | c :: rest =>
    (eqOpChar c &&
      (match rest.dropWhile pyIsSpace with
       | d :: _ => eqClassChar d
       | [] => false))
    || (c == 92 && latexWords.any (fun w => ciPrefixEq w rest))

/-- _EQUATION_HINT_RE.search: a match at some position of the block. -/
def eqSearch (l : Str) : Bool := l.tails.any eqHintAt

inductive BlockType where
  | empty
  | caption
  | table
  | code
  | equation
  | text
deriving DecidableEq

/-- _classify_block of ingests/chunking.py on a nonempty stripped block. -/
def classifyNonEmpty (b : Str) : BlockType :=
  if captionMatch b then .caption
  else
    let lines := pySplitlines b
    if max 3 (lines.length / 2) ≤ lines.countP isTabularLine then .table
    else if 2 ≤ lines.countP isCodeLine then .code
    else if eqSearch b && decide (b.length < 800) then .equation
    else .text

/-- _classify_block of ingests/chunking.py. -/
def classifyBlock (block : Str) : BlockType :=
  let b := pyStrip block
  if b.isEmpty then .empty else classifyNonEmpty b

/-- The classification precedence stated by the amended claim C4, written
from its words: caption first; else table when at least
max(3, floor(0.5 times the line count)) of the lines show tabular
structure; else code when at least two lines look like code; else
equation when the arithmetic heuristic matches and the block is under 800
characters; else text. -/
def claimClassify (block : Str) : BlockType :=
  let b := pyStrip block
  if captionMatch b then .caption
  else if max 3 ((pySplitlines b).length / 2) ≤ (pySplitlines b).countP isTabularLine then
    .table
  else if 2 ≤ (pySplitlines b).countP isCodeLine then .code
  else if eqSearch b && decide (b.length < 800) then .equation
  else .text

/-- text.replace of CRLF by LF then of CR by LF. -/
def replaceCR : Str → Str
  | [] => []
  | 13 :: 10 :: rest => 10 :: replaceCR rest
  | 13 :: rest => 10 :: replaceCR rest
  | c :: rest => c :: replaceCR rest

/-- re.sub collapsing runs of three or more newlines to two; the
accumulator holds the length of the current newline run. -/
def collapseNlAux : Nat → Str → Str
  | n, [] => List.replicate (min n 2) 10
  | n, c :: rest =>
    if c = 10 then collapseNlAux (n + 1) rest
    else List.replicate (min n 2) 10 ++ c :: collapseNlAux 0 rest

/-- _normalize of ingests/chunking.py. -/
def pyNormalize (text : Str) : Str := pyStrip (collapseNlAux 0 (replaceCR text))

/-- Index of the last newline of the list, if any. -/
def lastIdxNl : Str → Option Nat
  | [] => none
  | c :: rest =>
    match lastIdxNl rest with
    | some i => some (i + 1)
    | none => if c = 10 then some 0 else none

/-- re.split on a newline, optional whitespace, then a newline: a greedy
match starting at a newline spans the following whitespace run up to the
last newline inside it. The scanner holds the current piece reversed in
acc; with inSkip set it is inside a separator and discards whitespace
until the newline whose following whitespace run holds no further newline,
which is the last newline of the separator (skip mode always exits there,
so the empty-input skip case is unreachable). -/
def splitBlocksAux (inSkip : Bool) (acc : Str) : Str → List Str
  | [] => if inSkip then [] else [acc.reverse]
  | c :: rest =>
    if inSkip then
      if c = 10 ∧ (lastIdxNl (rest.takeWhile pyIsSpace)).isNone then
        splitBlocksAux false [] rest
      else splitBlocksAux true acc rest
    else
      if c = 10 ∧ (lastIdxNl (rest.takeWhile pyIsSpace)).isSome then
        acc.reverse :: splitBlocksAux true [] rest
      else splitBlocksAux false (c :: acc) rest

def splitBlocks (l : Str) : List Str := splitBlocksAux false [] l

/-- The stripped nonempty coarse blocks of a normalized page text, as
computed inside chunk_docs. -/
def blocksOf (text : Str) : List Str :=
  ((splitBlocks text).map pyStrip).filter (fun b => !b.isEmpty)

/-- A page Document as produced by load_pdfs of ingests/loaders.py. -/
structure PDoc where
  page_content : Str
  source : Str
  source_id : Str
  page : Nat
deriving DecidableEq

/-- A chunk emitted by chunk_docs, with the metadata it stamps. -/
structure Chunk where
  text : Str
  source : Str
  source_id : Str
  page : Nat
  chunk_type : BlockType
  chunk_id : Nat
deriving DecidableEq

/-- The block types kept intact as single chunks by chunk_docs. -/
def keepIntact (bt : BlockType) : Bool :=
  bt == .table || bt == .code || bt == .equation || bt == .caption

def mkChunk (d : PDoc) (bt : BlockType) (t : Str) (gid : Nat) : Chunk :=
  ⟨t, d.source, d.source_id, d.page, bt, gid⟩

/-- Emission of the splitter fragments of one text block, with consecutive
values of the global counter. -/
def numberFrom (d : PDoc) (bt : BlockType) (gid : Nat) : List Str → List Chunk
  | [] => []
  | t :: ts => mkChunk d bt t gid :: numberFrom d bt (gid + 1) ts

/-- Chunks emitted for one coarse block: non-text types stay intact, text
blocks go through the external recursive splitter. -/
def blockChunks (splitter : Str → List Str) (d : PDoc) (gid : Nat) (b : Str) : List Chunk :=
  let bt := classifyBlock b
  if keepIntact bt then [mkChunk d bt b gid] else numberFrom d bt gid (splitter b)

def blocksChunks (splitter : Str → List Str) (d : PDoc) (gid : Nat) : List Str → List Chunk
  | [] => []
  | b :: bs =>
    let cs := blockChunks splitter d gid b
    cs ++ blocksChunks splitter d (gid + cs.length) bs

/-- chunk_docs of ingests/chunking.py, with the counter threaded; the
external RecursiveCharacterTextSplitter is a parameter returning the
fragment texts of a block, metadata preserved. -/
def chunkDocsAux (splitter : Str → List Str) (gid : Nat) : List PDoc → List Chunk
  | [] => []
  | d :: ds =>
    let text := pyNormalize d.page_content
    if text.isEmpty then chunkDocsAux splitter gid ds
    else
      let cs := blocksChunks splitter d gid (blocksOf text)
      cs ++ chunkDocsAux splitter (gid + cs.length) ds

def chunk_docs (splitter : Str → List Str) (docs : List PDoc) : List Chunk :=
  chunkDocsAux splitter 0 docs

/- ------------------------------------------------------------------ -/
/- app/rag/pipeline.py -/
/- ------------------------------------------------------------------ -/

/-- A metadata page value: Python int or str. -/
inductive PageVal where
  | pint (n : Int)
  | pstr (s : Str)
deriving DecidableEq

/-- The effective page computed by _extract_page: an integer or the
unknown marker. -/
inductive EffPage where
  | pnum (n : Int)
  | punknown
deriving DecidableEq

/-- A chunk payload stored in the chunk index docstore; a missing
source_id is the empty string, as read through metadata.get with an empty
default. -/
structure Doc where
  page_content : Str
  source : Option Str
  source_id : Str
  page : Option PageVal
  chunk_id : Option Int
deriving DecidableEq

/-- A routing hit payload from the doc routing index. -/
structure RDoc where
  source_id : Str
  source : Str
deriving DecidableEq

/-- The strip().lower() normalization applied to source_id values inside
ask (no whitespace collapse there). -/
def sidOf (s : Str) : Str := (pyStrip s).map pyToLower

def docSid (d : Doc) : Str := sidOf d.source_id

/-- str.isdigit on the model: nonempty and all digits. -/
def pyIsDigitStr (s : Str) : Bool := !s.isEmpty && s.all pyIsDigit

/-- Integer value of a nonempty digit string. -/
def digitsVal (ds : Str) : Nat := ds.foldl (fun a c => a * 10 + (c - 48)) 0

/-- Word boundary against the previous character. -/
def boundaryBefore : Option Nat → Bool
  | none => true
  | some c => !pyIsWordChar c

/-- First page pattern of _extract_page: bracket, page, optional
whitespace, digits, closing bracket. -/
def p1At (l : Str) : Option Nat :=
  match l with
  | 91 :: rest =>
    if ciPrefixEq (pyStr "page") rest then
      let r := (rest.drop 4).dropWhile pyIsSpace
      let ds := r.takeWhile pyIsDigit
      if ds.isEmpty then none
      else
        match r.drop ds.length with
        | 93 :: _ => some (digitsVal ds)
        | _ => none
    else none
  | _ => none

/-- Second page pattern: word boundary, page, one or more of colon,
whitespace, hash or dash, digits, word boundary. -/
def p2At (prev : Option Nat) (l : Str) : Option Nat :=
  if boundaryBefore prev && ciPrefixEq (pyStr "page") l then
    let r := l.drop 4
    let sep := r.takeWhile (fun c => c == 58 || pyIsSpace c || c == 35 || c == 45)
    if sep.isEmpty then none
    else
      let r2 := r.drop sep.length
      let ds := r2.takeWhile pyIsDigit
      if !ds.isEmpty && boundaryAt (r2.drop ds.length) then some (digitsVal ds) else none
  else none

/-- Third page pattern: word boundary, p, period, optional whitespace,
digits, word boundary. -/
def p3At (prev : Option Nat) (l : Str) : Option Nat :=
  match l with
  | c :: 46 :: rest =>
    if boundaryBefore prev && (pyToLower c == 112) then
      let r := rest.dropWhile pyIsSpace
      let ds := r.takeWhile pyIsDigit
      if !ds.isEmpty && boundaryAt (r.drop ds.length) then some (digitsVal ds) else none
    else none
  | _ => none

/-- re.search: try the matcher at every position left to right, tracking
the previous character for word boundaries. -/
def searchPage (f : Option Nat → Str → Option Nat) : Option Nat → Str → Option Nat
  | prev, [] => f prev []
  | prev, c :: rest =>
    match f prev (c :: rest) with
    | some v => some v
    | none => searchPage f (some c) rest

/-- The inline page-marker scan of _extract_page over the first 400
characters, trying the three patterns in order. -/
def scanTextPage (text : Str) : EffPage :=
  let t := text.take 400
  match searchPage (fun _ l => p1At l) none t with
  | some n => .pnum n
  | none =>
    match searchPage p2At none t with
    | some n => .pnum n
    | none =>
      match searchPage p3At none t with
      | some n => .pnum n
      | none => .punknown

/-- _extract_page of RAGPipeline.ask: integer page metadata, else digit
string page metadata, else the inline text scan, else unknown. -/
def extractPage (d : Doc) : EffPage :=
  match d.page with
  | some (.pint n) => .pnum n
  | some (.pstr s) =>
    if pyIsDigitStr s then .pnum (digitsVal s) else scanTextPage d.page_content
  | none => scanTextPage d.page_content

/-- The metadata value written back by the dedup loop: the extracted page
as an int, or the question-mark string. -/
def effToMeta : EffPage → PageVal
  | .pnum n => .pint n
  | .punknown => .pstr (pyStr "?")

/-- The metadata reassignment d.metadata = old plus page inside the dedup
loop of ask. -/
def withPage (d : Doc) (p : EffPage) : Doc := { d with page := some (effToMeta p) }

/-- The deduplication key (source_id, page value) of ask. -/
def keyOf (d : Doc) : Str × EffPage := (docSid d, extractPage d)

/-- Stage A of ask: extract routed source ids from the routing hits,
skipping hits without a source_id and deduplicating with first-seen order;
also collect the display names. -/
def stageA (seen : List Str) : List RDoc → List Str × List Str
  | [] => ([], [])
  | d :: rest =>
    let sid := sidOf d.source_id
    if sid.isEmpty then stageA seen rest
    else if sid ∈ seen then stageA seen rest
    else
      let out := stageA (sid :: seen) rest
      (sid :: out.1, (if (pyStrip d.source).isEmpty then sid else pyStrip d.source) :: out.2)

/-- The candidate filter of Stage B: nonempty source id within the routed
set. -/
def chunkMatchesRouting (routedSet : List Str) (d : Doc) : Bool :=
  !(docSid d).isEmpty && decide (docSid d ∈ routedSet)

/-- Stage B document selection of ask, over store indices since
similarity_search returns the stored docstore objects. In the branch where
the similarity-filtered set is empty but the docstore scan finds chunks of
routed documents, the source assigns filtered and routing_used but never
the local variable docs, and the later loop over docs raises
UnboundLocalError: that branch is modelled as none. -/
def selectDocs (routedSet : List Str) (candIdx : List Nat) (store : List Doc) (topk : Nat) :
    Option (List Nat × Bool) :=
  let filteredIdx := candIdx.filter (fun i =>
    match store[i]? with
    | some d => chunkMatchesRouting routedSet d
    | none => false)
  if filteredIdx.isEmpty then
    let allIdx := (List.range store.length).filter (fun i =>
      match store[i]? with
      | some d => decide (docSid d ∈ routedSet)
      | none => false)
    if !allIdx.isEmpty then none
    else some (candIdx.take topk, false)
  else some (filteredIdx.take topk, true)

/-- The dedup loop of ask: resolve the effective page, skip keys already
seen, write the resolved page back into the stored chunk metadata (the
selected docs alias the docstore), and collect the kept docs. Returns the
updated store and the deduplicated list. -/
def dedupLoop (seen : List (Str × EffPage)) (store : List Doc) :
    List Nat → List Doc × List Doc
  | [] => (store, [])
  | i :: rest =>
    match store[i]? with
    | none => dedupLoop seen store rest
    | some d =>
      let pv := extractPage d
      let key := (docSid d, pv)
      if key ∈ seen then dedupLoop seen store rest
      else
        let d2 := withPage d pv
        let out := dedupLoop (key :: seen) (store.set i d2) rest
        (out.1, d2 :: out.2)

def natDecimal (n : Nat) : Str := (Nat.toDigits 10 n).map Char.toNat

def intDecimal (n : Int) : Str :=
  if n < 0 then 45 :: natDecimal n.natAbs else natDecimal n.natAbs

/-- Python string formatting of a metadata page value. -/
def pageValStr : PageVal → Str
  | .pint n => intDecimal n
  | .pstr s => s

/-- metadata.get of source with default unknown. -/
def docSrcDisplay (d : Doc) : Str := d.source.getD (pyStr "unknown")

/-- metadata.get of page with the question-mark default. -/
def docPageDisplay (d : Doc) : PageVal := d.page.getD (.pstr (pyStr "?"))

/-- A citation stub of the sources list of ask. -/
structure SrcEntry where
  source : Str
  page : PageVal
  chunk_id : Option Int
deriving DecidableEq

/-- A snippet entry of ask: the stub plus a whitespace-collapsed preview. -/
structure SnipEntry where
  source : Str
  page : PageVal
  chunk_id : Option Int
  text : Str
deriving DecidableEq

def srcEntryOf (d : Doc) : SrcEntry := ⟨docSrcDisplay d, docPageDisplay d, d.chunk_id⟩

def snipEntryOf (d : Doc) : SnipEntry :=
  ⟨docSrcDisplay d, docPageDisplay d, d.chunk_id,
    (collapseWs (pyStrip d.page_content)).take 240⟩

/-- The formatted context block of one chunk. -/
def blockOf (d : Doc) : Str :=
  pyStr "Source: " ++ docSrcDisplay d ++ pyStr " | Page: " ++ pageValStr (docPageDisplay d)
    ++ [10] ++ pyStrip d.page_content ++ [10]

/-- The fixed character budget max_chars of ask. -/
def maxCtxChars : Nat := 8000

/-- The context assembly loop of ask: the sources and snippets entries of
a chunk are appended before the budget check, then the loop breaks when
adding the block would exceed the budget. Returns context blocks, sources
and snippets. -/
def buildCtx (used : Nat) : List Doc → List Str × List SrcEntry × List SnipEntry
  | [] => ([], [], [])
  | d :: rest =>
    let s := srcEntryOf d
    let sn := snipEntryOf d
    let blk := blockOf d
    if maxCtxChars < used + blk.length then ([], [s], [sn])
    else
      let out := buildCtx (used + blk.length) rest
      (blk :: out.1, s :: out.2.1, sn :: out.2.2)

def joinBlocks : List Str → Str
  | [] => []
  | [b] => b
  | b :: rest => b ++ pyStr "\n---\n" ++ joinBlocks rest

def userPromptOf (context question : Str) : Str :=
  pyStr "CONTEXT:\n    " ++ context
    ++ pyStr "\n\n    QUESTION:\n    " ++ question
    ++ pyStr "\n\n    Answer now."

/-- The response dict of ask. -/
structure Response where
  answer : Str
  routed_docs : List Str
  routing_used : Bool
  sources : List SrcEntry
  snippets : List SnipEntry
  retrieved_count : Nat
  used_count : Nat
deriving DecidableEq

/-- top_k = k or settings.rag_top_k: a missing or falsy zero k selects the
configured default. -/
def topkOf (kOpt : Option Nat) (ragTopK : Nat) : Nat :=
  match kOpt with
  | some n => if n = 0 then ragTopK else n
  | none => ragTopK

/-- RAGPipeline.ask of app/rag/pipeline.py. The external collaborators are
parameters: llm is the completion call on the user prompt, hits is the
routing-index search result for the question, candIdx is the chunk-index
search result as indices into the docstore (the stored objects are
returned by reference), kOpt the optional k argument (a falsy zero also
selects the default), ragTopK the configured top k. Returns none when the
source raises UnboundLocalError, else the updated docstore and the
response. -/
def ask (llm : Str → Str) (question : Str) (store : List Doc) (hits : List RDoc)
    (candIdx : List Nat) (kOpt : Option Nat) (ragTopK : Nat) :
    Option (List Doc × Response) :=
  let topk := topkOf kOpt ragTopK
  let route := stageA [] hits
  match selectDocs route.1 candIdx store topk with
  | none => none
  | some sel =>
    let ded := dedupLoop [] store sel.1
    let ctx := buildCtx 0 ded.2
    let user := userPromptOf (joinBlocks ctx.1) question
    some (ded.1,
      { answer := pyStrip (llm user)
        routed_docs := route.2
        routing_used := sel.2
        sources := ctx.2.1
        snippets := ctx.2.2
        retrieved_count := candIdx.length
        used_count := ctx.2.1.length })

/- ------------------------------------------------------------------ -/
/- Structured-mode validation (spec section 4.5) -/
/- ------------------------------------------------------------------ -/

/-- Modelled from the spec: the parsed shape of the structured-mode model
response. The structured mode is described in section 4.5 of the
specification but absent from src, whose pipeline.py implements only the
free-text mode; a field holds none when the raw JSON value has the wrong
type, and a wholly missing or unparseable JSON object is the none case of
the validator argument. -/
structure RawStruct where
  definition : Option Str
  why_it_matters : Option Str
  components : Option (List Str)
  cited_chunks : List Str
deriving DecidableEq

/-- The strict validated answer schema of structured mode. -/
structure StructAnswer where
  definition : Str
  why_it_matters : Str
  components : List Str
  cited_chunks : List Str
deriving DecidableEq

/-- The fixed fallback object, built from the fallback unknown sentence. -/
def fallbackAnswer (fb : Str) : StructAnswer := ⟨fb, fb, [], []⟩

/-- Modelled from the spec: structured-mode validation. String fields are
replaced by the fallback sentence when mistyped; components are emptied
when mistyped and clamped to five; cited chunks are filtered to ids
present among the assembled context blocks and clamped to three; a
non-fallback answer with zero valid citations, or with more than three raw
citations, is replaced whole by the fallback object; malformed JSON is
replaced whole by the fallback object. -/
def validateStruct (fb : Str) (ctxIds : List Str) (raw : Option RawStruct) : StructAnswer :=
  match raw with
  | none => fallbackAnswer fb
  | some r =>
    let defn := r.definition.getD fb
    let why := r.why_it_matters.getD fb
    let comps := (r.components.getD []).take 5
    let valid := (r.cited_chunks.filter (fun c => decide (c ∈ ctxIds))).take 3
    if defn ≠ fb ∧ valid.isEmpty then fallbackAnswer fb
    else if 3 < r.cited_chunks.length ∧ defn ≠ fb then fallbackAnswer fb
    else ⟨defn, why, comps, valid⟩

/- ------------------------------------------------------------------ -/
/- Concrete example inputs -/
/- ------------------------------------------------------------------ -/

/-- A trivial completion stub for concrete runs of ask. -/
def exLlm : Str → Str := fun _ => []

def exQuestion : Str := pyStr "q"

/-- A stored chunk of document a with no page metadata and no inline page
marker. -/
def exDocA : Doc := ⟨pyStr "hello", some (pyStr "A.pdf"), pyStr "a", none, none⟩

/-- A stored chunk of document b. -/
def exDocB : Doc := ⟨pyStr "hello", some (pyStr "A.pdf"), pyStr "b", none, none⟩

/-- A routing hit carrying source id a. -/
def exHitA : RDoc := ⟨pyStr "a", pyStr "A.pdf"⟩

/-- A routing hit with an empty source id. -/
def exHitNoSid : RDoc := ⟨[], pyStr "A.pdf"⟩

/-- A chunk whose single context block exceeds the character budget. -/
def exBigDoc : Doc := ⟨List.replicate 9000 120, some (pyStr "A.pdf"), pyStr "a", none, none⟩

/-- The two-line pipe-separated block of the C4 counterexample. -/
def exPipeBlock : Str := pyStr "a | b\nc | d"

/-- The chunk docstore after the concrete C9 run: the stored chunk has
its page metadata set to the question-mark marker. -/
def exC9Store : List Doc :=
  [⟨pyStr "hello", some (pyStr "A.pdf"), pyStr "a", some (.pstr (pyStr "?")), none⟩]

/-- The response of the concrete C9 run of ask. -/
def exC9Resp : Response :=
  ⟨[], [pyStr "A.pdf"], true, [⟨pyStr "A.pdf", .pstr (pyStr "?"), none⟩],
   [⟨pyStr "A.pdf", .pstr (pyStr "?"), none, pyStr "hello"⟩], 1, 1⟩

/-- A structured response with a non-fallback answer and one citation
outside the context. -/
def exRaw1 : RawStruct := ⟨some (pyStr "yes"), some (pyStr "w"), some [], [pyStr "c9"]⟩

/-- A structured response with a non-fallback answer and four citations. -/
def exRaw2 : RawStruct :=
  ⟨some (pyStr "yes"), none, none, [pyStr "a", pyStr "a", pyStr "a", pyStr "a"]⟩

/- ------------------------------------------------------------------ -/
/- Theorems -/
/- ------------------------------------------------------------------ -/

theorem pyToLower_pyToLower (c : Nat) : pyToLower (pyToLower c) = pyToLower c := by
  unfold pyToLower
  split_ifs <;> omega

theorem pyIsSpace_pyToLower (c : Nat) : pyIsSpace (pyToLower c) = pyIsSpace c := by
  unfold pyToLower pyIsSpace
  split_ifs with h
  · rw [decide_eq_decide]
    omega
  · rfl

theorem map_pyToLower_idem (l : Str) :
    (l.map pyToLower).map pyToLower = l.map pyToLower := by
  induction l with
  | nil => rfl
  | cons c rest ih => simp [pyToLower_pyToLower, ih]

theorem collapseAux_cons_not_ws (c : Nat) (rest : Str) (b : Bool)
    (h : pyIsSpace c = false) : collapseAux b (c :: rest) = c :: collapseAux false rest := by
  simp [collapseAux, h]

theorem collapseAux_cons_ws_true (c : Nat) (rest : Str)
    (h : pyIsSpace c = true) : collapseAux true (c :: rest) = collapseAux true rest := by
  simp [collapseAux, h]

theorem collapseAux_cons_ws_false (c : Nat) (rest : Str)
    (h : pyIsSpace c = true) : collapseAux false (c :: rest) = 32 :: collapseAux true rest := by
  simp [collapseAux, h]

theorem pyToLower_32 : pyToLower 32 = 32 := by decide

theorem map_pyToLower_collapseAux (l : Str) (b : Bool) :
    (collapseAux b l).map pyToLower = collapseAux b (l.map pyToLower) := by
  induction l generalizing b with
  | nil => rfl
  | cons c rest ih =>
    by_cases hc : pyIsSpace c = true
    · have hws : pyIsSpace (pyToLower c) = true := (pyIsSpace_pyToLower c).trans hc
      cases b with
      | true =>
        rw [List.map_cons, collapseAux_cons_ws_true c rest hc,
          collapseAux_cons_ws_true _ _ hws]
        exact ih true
      | false =>
        rw [List.map_cons, collapseAux_cons_ws_false c rest hc,
          collapseAux_cons_ws_false _ _ hws, List.map_cons, pyToLower_32]
        rw [ih true]
    · have hcf : pyIsSpace c = false := by simpa using hc
      have hws : pyIsSpace (pyToLower c) = false := (pyIsSpace_pyToLower c).trans hcf
      rw [List.map_cons, collapseAux_cons_not_ws c rest b hcf,
        collapseAux_cons_not_ws _ _ b hws, List.map_cons]
      rw [ih false]

theorem dropWhile_ws_eq_self (l : Str) (h : startsOk l = true) :
    l.dropWhile pyIsSpace = l := by
  cases l with
  | nil => rfl
  | cons c rest =>
    simp only [startsOk, Bool.not_eq_true'] at h
    simp [List.dropWhile_cons, h]

theorem dropTrailWs_eq_self (l : Str) (h : lastOk l = true) : dropTrailWs l = l := by
  induction l with
  | nil => rfl
  | cons c rest ih =>
    cases rest with
    | nil =>
      simp only [lastOk, Bool.not_eq_true'] at h
      simp [dropTrailWs, h]
    | cons d r2 =>
      have h2 : lastOk (d :: r2) = true := h
      rw [dropTrailWs, ih h2]
      simp

theorem startsOk_dropWhile_ws (l : Str) : startsOk (l.dropWhile pyIsSpace) = true := by
  induction l with
  | nil => rfl
  | cons c rest ih =>
    by_cases hc : pyIsSpace c
    · simpa [List.dropWhile_cons, hc] using ih
    · simp [List.dropWhile_cons, hc, startsOk]

theorem startsOk_dropTrailWs (l : Str) (h : startsOk l = true) :
    startsOk (dropTrailWs l) = true := by
  cases l with
  | nil => rfl
  | cons c rest =>
    rw [dropTrailWs]
    split
    · rfl
    · simpa [startsOk] using h

theorem lastOk_dropTrailWs (l : Str) : lastOk (dropTrailWs l) = true := by
  induction l with
  | nil => rfl
  | cons c rest ih =>
    rw [dropTrailWs]
    split
    · rfl
    · rename_i hcond
      rcases hr : dropTrailWs rest with _ | ⟨d, r2⟩
      · rw [hr] at hcond
        simp only [List.isEmpty_nil, Bool.true_and, Bool.not_eq_true'] at hcond
        simp [lastOk, hcond]
      · first
        | exact ih
        | (rw [hr] at ih; exact ih)

theorem startsOk_pyStrip (l : Str) : startsOk (pyStrip l) = true :=
  startsOk_dropTrailWs _ (startsOk_dropWhile_ws l)

theorem lastOk_pyStrip (l : Str) : lastOk (pyStrip l) = true :=
  lastOk_dropTrailWs _

theorem startsOk_map_pyToLower (l : Str) (h : startsOk l = true) :
    startsOk (l.map pyToLower) = true := by
  cases l with
  | nil => rfl
  | cons c rest => simpa [startsOk, pyIsSpace_pyToLower] using h

theorem lastOk_map_pyToLower (l : Str) (h : lastOk l = true) :
    lastOk (l.map pyToLower) = true := by
  induction l with
  | nil => rfl
  | cons c rest ih =>
    cases rest with
    | nil => simpa [lastOk, pyIsSpace_pyToLower] using h
    | cons d r2 =>
      have h2 : lastOk (d :: r2) = true := h
      simpa [lastOk] using ih h2

theorem startsOk_collapseAux_true (l : Str) : startsOk (collapseAux true l) = true := by
  induction l with
  | nil => rfl
  | cons c rest ih =>
    by_cases hc : pyIsSpace c
    · simpa [collapseAux, hc] using ih
    · simp [collapseAux, hc, startsOk]

theorem startsOk_collapseWs (l : Str) (h : startsOk l = true) :
    startsOk (collapseWs l) = true := by
  cases l with
  | nil => rfl
  | cons c rest =>
    simp only [startsOk, Bool.not_eq_true'] at h
    simp [collapseWs, collapseAux, h, startsOk]

theorem lastOk_collapseAux (l : Str) (b : Bool) (h : lastOk l = true) :
    lastOk (collapseAux b l) = true ∧ (collapseAux b l = [] → l = []) := by
  induction l generalizing b with
  | nil => exact ⟨rfl, fun _ => rfl⟩
  | cons c rest ih =>
    cases rest with
    | nil =>
      have hc : pyIsSpace c = false := by simpa [lastOk] using h
      rw [collapseAux_cons_not_ws c [] b hc]
      exact ⟨by simp [collapseAux, lastOk, hc], by simp⟩
    | cons d r2 =>
      have h2 : lastOk (d :: r2) = true := h
      by_cases hc : pyIsSpace c = true
      · have hne : collapseAux true (d :: r2) ≠ [] := by
          intro he
          exact absurd ((ih true h2).2 he) (by simp)
        cases b with
        | true =>
          rw [collapseAux_cons_ws_true c _ hc]
          exact ⟨(ih true h2).1, fun he => absurd ((ih true h2).2 he) (by simp)⟩
        | false =>
          rw [collapseAux_cons_ws_false c _ hc]
          refine ⟨?_, by simp⟩
          rcases hx : collapseAux true (d :: r2) with _ | ⟨e, r3⟩
          · exact absurd hx hne
          · have h1 := (ih true h2).1
            rw [hx] at h1
            simpa [lastOk] using h1
      · have hcf : pyIsSpace c = false := by simpa using hc
        rw [collapseAux_cons_not_ws c _ b hcf]
        refine ⟨?_, by simp⟩
        rcases hx : collapseAux false (d :: r2) with _ | ⟨e, r3⟩
        · exact absurd ((ih false h2).2 hx) (by simp)
        · have h1 := (ih false h2).1
          rw [hx] at h1
          simpa [lastOk] using h1

theorem isCollapsed_cons (c : Nat) (X : Str) (h1 : isCollapsed X = true)
    (h2 : (!pyIsSpace c || (c == 32 && startsOk X)) = true) :
    isCollapsed (c :: X) = true := by
  cases X with
  | nil => simpa [isCollapsed, startsOk] using h2
  | cons d r =>
    simp only [isCollapsed]
    simp only [startsOk] at h2
    simp only [Bool.and_eq_true, Bool.or_eq_true] at h2 ⊢
    exact ⟨h2, h1⟩

theorem isCollapsed_collapseAux (l : Str) (b : Bool) :
    isCollapsed (collapseAux b l) = true := by
  induction l generalizing b with
  | nil => rfl
  | cons c rest ih =>
    by_cases hc : pyIsSpace c
    · cases b with
      | true => simpa [collapseAux, hc] using ih true
      | false =>
        simp only [collapseAux, hc, if_true, if_false]
        refine isCollapsed_cons 32 _ (ih true) ?_
        simp [startsOk_collapseAux_true]
    · simp only [collapseAux, hc, if_false]
      refine isCollapsed_cons c _ (ih false) ?_
      simp [hc]

theorem isCollapsed_tail (c : Nat) (rest : Str) (h : isCollapsed (c :: rest) = true) :
    isCollapsed rest = true := by
  cases rest with
  | nil => rfl
  | cons d r =>
    simp only [isCollapsed, Bool.and_eq_true] at h
    exact h.2

theorem isCollapsed_head (c : Nat) (rest : Str) (h : isCollapsed (c :: rest) = true) :
    (!pyIsSpace c || (c == 32 && startsOk rest)) = true := by
  cases rest with
  | nil =>
    simp only [isCollapsed] at h
    simpa [startsOk] using h
  | cons d r =>
    simp only [isCollapsed, Bool.and_eq_true] at h
    simpa [startsOk] using h.1

theorem collapseWs_fix (l : Str) (h : isCollapsed l = true) : collapseAux false l = l := by
  induction l with
  | nil => rfl
  | cons c rest ih =>
    have htail := isCollapsed_tail c rest h
    have hhead := isCollapsed_head c rest h
    by_cases hc : pyIsSpace c = true
    · simp only [hc, Bool.not_true, Bool.false_or, Bool.and_eq_true, beq_iff_eq] at hhead
      obtain ⟨hc32, hst⟩ := hhead
      subst hc32
      rw [collapseAux_cons_ws_false 32 rest hc]
      congr 1
      cases rest with
      | nil => rfl
      | cons d r2 =>
        have hdf : pyIsSpace d = false := by simpa [startsOk] using hst
        rw [collapseAux_cons_not_ws d r2 true hdf]
        have hrec := ih htail
        rw [collapseAux_cons_not_ws d r2 false hdf] at hrec
        exact hrec
    · rw [collapseAux_cons_not_ws c rest false (by simpa using hc)]
      rw [ih htail]

/-- C5. The canonicalizer _source_id of ingests/loaders.py trims, lowercases
and collapses internal whitespace; it is idempotent, and case and whitespace
insensitive as on the example pair of the specification. -/
theorem C5_source_id_idempotent :
    (∀ x : Str, source_id (source_id x) = source_id x) ∧
    source_id (pyStr "Doc A.pdf") = source_id (pyStr "  doc a.pdf ") := by
  constructor
  · intro x
    have hsoZ : startsOk ((pyStrip x).map pyToLower) = true :=
      startsOk_map_pyToLower _ (startsOk_pyStrip x)
    have hloZ : lastOk ((pyStrip x).map pyToLower) = true :=
      lastOk_map_pyToLower _ (lastOk_pyStrip x)
    have hsoY : startsOk (source_id x) = true := startsOk_collapseWs _ hsoZ
    have hloY : lastOk (source_id x) = true :=
      (lastOk_collapseAux _ false hloZ).1
    have hT : pyStrip (source_id x) = source_id x := by
      unfold pyStrip
      rw [dropWhile_ws_eq_self _ hsoY, dropTrailWs_eq_self _ hloY]
    have hL : (source_id x).map pyToLower = source_id x := by
      show (collapseWs ((pyStrip x).map pyToLower)).map pyToLower = _
      unfold collapseWs
      rw [map_pyToLower_collapseAux, map_pyToLower_idem]
      rfl
    show collapseWs ((pyStrip (source_id x)).map pyToLower) = source_id x
    rw [hT, hL]
    exact collapseWs_fix _ (isCollapsed_collapseAux _ _)
  · rfl

theorem buildCtx_cons_over (d : Doc) (rest : List Doc) (used : Nat)
    (h : maxCtxChars < used + (blockOf d).length) :
    buildCtx used (d :: rest) = ([], [srcEntryOf d], [snipEntryOf d]) := by
  simp [buildCtx, h]

theorem buildCtx_cons_le (d : Doc) (rest : List Doc) (used : Nat)
    (h : ¬maxCtxChars < used + (blockOf d).length) :
    buildCtx used (d :: rest) =
      (blockOf d :: (buildCtx (used + (blockOf d).length) rest).1,
       srcEntryOf d :: (buildCtx (used + (blockOf d).length) rest).2.1,
       snipEntryOf d :: (buildCtx (used + (blockOf d).length) rest).2.2) := by
  simp [buildCtx, h]

theorem buildCtx_sum_le (l : List Doc) :
    ∀ used, (((buildCtx used l).1).map List.length).sum + used ≤ maxCtxChars ∨
      (buildCtx used l).1 = [] := by
  induction l with
  | nil => exact fun used => Or.inr rfl
  | cons d rest ih =>
    intro used
    by_cases h : maxCtxChars < used + (blockOf d).length
    · right
      rw [buildCtx_cons_over d rest used h]
    · left
      rw [buildCtx_cons_le d rest used h]
      rcases ih (used + (blockOf d).length) with h1 | h1
      · simp only [List.map_cons, List.sum_cons]
        omega
      · simp only [List.map_cons, List.sum_cons, h1, List.map_nil, List.sum_nil]
        omega

theorem buildCtx_blocks_lead (l : List Doc) :
    ∀ used, (buildCtx used l).1 = (l.take (buildCtx used l).1.length).map blockOf := by
  induction l with
  | nil => exact fun used => rfl
  | cons d rest ih =>
    intro used
    by_cases h : maxCtxChars < used + (blockOf d).length
    · rw [buildCtx_cons_over d rest used h]
      rfl
    · rw [buildCtx_cons_le d rest used h]
      simp only [List.length_cons, List.take_succ_cons, List.map_cons]
      rw [← ih (used + (blockOf d).length)]

theorem buildCtx_sources_lead (l : List Doc) :
    ∀ used, (buildCtx used l).2.1 = (l.take (buildCtx used l).2.1.length).map srcEntryOf := by
  induction l with
  | nil => exact fun used => rfl
  | cons d rest ih =>
    intro used
    by_cases h : maxCtxChars < used + (blockOf d).length
    · rw [buildCtx_cons_over d rest used h]
      rfl
    · rw [buildCtx_cons_le d rest used h]
      simp only [List.length_cons, List.take_succ_cons, List.map_cons]
      rw [← ih (used + (blockOf d).length)]

theorem buildCtx_snippets_lead (l : List Doc) :
    ∀ used, (buildCtx used l).2.2 = (l.take (buildCtx used l).2.2.length).map snipEntryOf := by
  induction l with
  | nil => exact fun used => rfl
  | cons d rest ih =>
    intro used
    by_cases h : maxCtxChars < used + (blockOf d).length
    · rw [buildCtx_cons_over d rest used h]
      rfl
    · rw [buildCtx_cons_le d rest used h]
      simp only [List.length_cons, List.take_succ_cons, List.map_cons]
      rw [← ih (used + (blockOf d).length)]

theorem buildCtx_lengths (l : List Doc) :
    ∀ used, (buildCtx used l).2.1.length = (buildCtx used l).2.2.length ∧
      ((buildCtx used l).2.1.length = (buildCtx used l).1.length ∨
        (buildCtx used l).2.1.length = (buildCtx used l).1.length + 1) := by
  induction l with
  | nil => exact fun used => ⟨rfl, Or.inl rfl⟩
  | cons d rest ih =>
    intro used
    by_cases h : maxCtxChars < used + (blockOf d).length
    · rw [buildCtx_cons_over d rest used h]
      exact ⟨rfl, Or.inr rfl⟩
    · rw [buildCtx_cons_le d rest used h]
      have := ih (used + (blockOf d).length)
      simp only [List.length_cons]
      omega

/-- C2. Context assembly produces the blocks of the leading deduplicated
chunks in rank order, each block whole, and the total character length of
the included blocks never exceeds the fixed budget of 8000. -/
theorem C2_context_budget (deduped : List Doc) :
    (((buildCtx 0 deduped).1).map List.length).sum ≤ maxCtxChars ∧
    (buildCtx 0 deduped).1 = (deduped.take (buildCtx 0 deduped).1.length).map blockOf := by
  constructor
  · rcases buildCtx_sum_le deduped 0 with h | h
    · omega
    · simp [h, maxCtxChars]
  · exact buildCtx_blocks_lead deduped 0

theorem pyStrip_eq_self (l : Str) (h1 : startsOk l = true) (h2 : lastOk l = true) :
    pyStrip l = l := by
  unfold pyStrip
  rw [dropWhile_ws_eq_self l h1, dropTrailWs_eq_self l h2]

theorem lastOk_replicate (n : Nat) (c : Nat) (h : pyIsSpace c = false) :
    lastOk (List.replicate n c) = true := by
  induction n with
  | zero => rfl
  | succ n ih =>
    rw [List.replicate_succ]
    cases hn : List.replicate n c with
    | nil => simp [lastOk, h]
    | cons d r =>
      rw [hn] at ih
      simpa [lastOk] using ih

/-- C3 counterexample. A single chunk whose block exceeds the budget is
excluded from the context blocks yet still contributes a sources entry
and a snippets entry, so those lists are not parallel to the blocks
actually included. -/
theorem C3_counterexample :
    (buildCtx 0 [exBigDoc]).1 = [] ∧ (buildCtx 0 [exBigDoc]).2.1.length = 1 ∧
    (buildCtx 0 [exBigDoc]).2.2.length = 1 := by
  have h9 : pyStrip (List.replicate 9000 120) = List.replicate 9000 120 :=
    pyStrip_eq_self _ (by decide) (lastOk_replicate 9000 120 (by decide))
  have hb : (blockOf exBigDoc).length = 9025 := by
    show (pyStr "Source: " ++ pyStr "A.pdf" ++ pyStr " | Page: " ++ pyStr "?"
      ++ [10] ++ pyStrip (List.replicate 9000 120) ++ [10]).length = 9025
    rw [h9]
    simp only [List.length_append, List.length_replicate]
    decide
  have hstep : buildCtx 0 [exBigDoc] = ([], [srcEntryOf exBigDoc], [snipEntryOf exBigDoc]) := by
    apply buildCtx_cons_over
    rw [hb]
    decide
  rw [hstep]
  exact ⟨rfl, rfl, rfl⟩

/-- C3 amended. The sources and snippets lists are parallel to each other
and collect the leading deduplicated chunks in order; they cover every
chunk whose block is included, plus exactly one further entry for the
first chunk excluded by the character budget when the loop breaks, since
the source appends both entries before the budget check. -/
theorem C3_sources_parallel (deduped : List Doc) :
    (buildCtx 0 deduped).2.1 =
      (deduped.take (buildCtx 0 deduped).2.1.length).map srcEntryOf ∧
    (buildCtx 0 deduped).2.2 =
      (deduped.take (buildCtx 0 deduped).2.2.length).map snipEntryOf ∧
    (buildCtx 0 deduped).2.1.length = (buildCtx 0 deduped).2.2.length ∧
    ((buildCtx 0 deduped).2.1.length = (buildCtx 0 deduped).1.length ∨
      (buildCtx 0 deduped).2.1.length = (buildCtx 0 deduped).1.length + 1) :=
  ⟨buildCtx_sources_lead deduped 0, buildCtx_snippets_lead deduped 0,
    (buildCtx_lengths deduped 0).1, (buildCtx_lengths deduped 0).2⟩

/-- C1. Evaluation of ask at the failing input: the routing index routes
to document a, the similarity candidates contain no chunk of a routed
document, and the chunk docstore does contain a chunk of document a; the
source then assigns filtered but never docs, and the loop over docs
raises UnboundLocalError instead of returning the claimed well-formed
response, modelled as the none result. -/
theorem C1_fallback_crash_eval :
    ask exLlm exQuestion [exDocA] [exHitA] [] none 8 = none := by decide

theorem stageA_all_empty (hits : List RDoc) (h : ∀ r ∈ hits, sidOf r.source_id = []) :
    ∀ seen, stageA seen hits = ([], []) := by
  induction hits with
  | nil => exact fun seen => rfl
  | cons r rest ih =>
    intro seen
    have hr : sidOf r.source_id = [] := h r (by simp)
    have hrest : ∀ x ∈ rest, sidOf x.source_id = [] := fun x hx => h x (by simp [hx])
    simp [stageA, hr, ih hrest seen]

theorem selectDocs_empty_routing (candIdx : List Nat) (store : List Doc) (topk : Nat) :
    selectDocs [] candIdx store topk = some (candIdx.take topk, false) := by
  have h1 : (candIdx.filter fun i =>
      match store[i]? with
      | some d => chunkMatchesRouting [] d
      | none => false) = [] := by
    apply List.filter_eq_nil_iff.mpr
    intro i _
    cases hx : store[i]? with
    | none => simp
    | some d => simp [chunkMatchesRouting]
  have h2 : ((List.range store.length).filter fun i =>
      match store[i]? with
      | some d => decide (docSid d ∈ ([] : List Str))
      | none => false) = [] := by
    apply List.filter_eq_nil_iff.mpr
    intro i _
    cases hx : store[i]? with
    | none => simp
    | some d => simp
  simp only [selectDocs]
  rw [h1, h2]
  simp

/-- C8. When no routing hit carries a source key, Stage B selects the
first top k unfiltered similarity candidates in order and ask returns a
response flagged as not routing assisted. -/
theorem C8_unrouted_fallback (llm : Str → Str) (question : Str) (store : List Doc)
    (hits : List RDoc) (candIdx : List Nat) (kOpt : Option Nat) (ragTopK : Nat)
    (h : ∀ r ∈ hits, sidOf r.source_id = []) :
    selectDocs (stageA [] hits).1 candIdx store (topkOf kOpt ragTopK) =
      some (candIdx.take (topkOf kOpt ragTopK), false) ∧
    ∃ p, ask llm question store hits candIdx kOpt ragTopK = some p ∧
      p.2.routing_used = false := by
  have hA := stageA_all_empty hits h []
  constructor
  · rw [hA]
    exact selectDocs_empty_routing candIdx store (topkOf kOpt ragTopK)
  · simp only [ask, hA]
    rw [selectDocs_empty_routing]
    exact ⟨_, rfl, rfl⟩

theorem C8_witness :
    selectDocs (stageA [] [exHitNoSid]).1 [0] [exDocB] (topkOf none 8) =
      some ([0].take (topkOf none 8), false) :=
  (C8_unrouted_fallback exLlm exQuestion [exDocB] [exHitNoSid] [0] none 8 (by decide)).1

/-- C10. Structured-mode validation is total and replaces the whole
answer by the fixed fallback object when the declared answer is not the
fallback sentence and zero valid citations remain after filtering to the
context ids, or when more than three raw citations accompany a
non-fallback answer; malformed JSON is likewise replaced whole. -/
theorem C10_structured_validation (fb : Str) (ctxIds : List Str) (r : RawStruct) :
    validateStruct fb ctxIds none = fallbackAnswer fb ∧
    (r.definition.getD fb ≠ fb →
      r.cited_chunks.filter (fun c => decide (c ∈ ctxIds)) = [] →
      validateStruct fb ctxIds (some r) = fallbackAnswer fb) ∧
    (r.definition.getD fb ≠ fb → 3 < r.cited_chunks.length →
      validateStruct fb ctxIds (some r) = fallbackAnswer fb) := by
  refine ⟨rfl, ?_, ?_⟩
  · intro hdef hfil
    simp only [validateStruct]
    rw [hfil]
    simp [hdef]
  · intro hdef hlen
    simp only [validateStruct]
    by_cases hv :
        ((r.cited_chunks.filter fun c => decide (c ∈ ctxIds)).take 3).isEmpty = true
    · rw [if_pos ⟨hdef, hv⟩]
    · rw [if_neg fun hand => hv hand.2, if_pos ⟨hlen, hdef⟩]

theorem C10_witness :
    validateStruct (pyStr "unknown") [] (some exRaw1) = fallbackAnswer (pyStr "unknown") ∧
    validateStruct (pyStr "unknown") [pyStr "a"] (some exRaw2) =
      fallbackAnswer (pyStr "unknown") :=
  ⟨(C10_structured_validation (pyStr "unknown") [] exRaw1).2.1 (by decide) (by decide),
   (C10_structured_validation (pyStr "unknown") [pyStr "a"] exRaw2).2.2
     (by decide) (by decide)⟩

/-- C4 counterexample. The two-line block with a pipe in every line has
all (hence at least half) of its lines tabular and is not a caption, yet
_classify_block returns text rather than table, because the source
threshold is max(3, floor(0.5 times the line count)), never below three
lines. -/
theorem C4_counterexample :
    classifyBlock exPipeBlock = BlockType.text ∧
    classifyBlock exPipeBlock ≠ BlockType.table ∧
    captionMatch (pyStrip exPipeBlock) = false ∧
    (pySplitlines (pyStrip exPipeBlock)).length = 2 ∧
    (pySplitlines (pyStrip exPipeBlock)).countP isTabularLine = 2 := by decide

/-- C4 amended. On every block that is nonempty after stripping,
_classify_block follows the stated precedence with the table threshold
amended to at least max(3, floor(0.5 times the line count)) tabular
lines. -/
theorem C4_classification_precedence (block : Str)
    (h : ¬(pyStrip block).isEmpty = true) :
    classifyBlock block = claimClassify block := by
  show (if (pyStrip block).isEmpty then BlockType.empty
        else classifyNonEmpty (pyStrip block)) = claimClassify block
  rw [if_neg h]
  rfl

theorem C4_witness : classifyBlock exPipeBlock = claimClassify exPipeBlock :=
  C4_classification_precedence exPipeBlock (by decide)

theorem range'_append_one (s m n : Nat) :
    List.range' s m ++ List.range' (s + m) n = List.range' s (m + n) := by
  induction m generalizing s with
  | zero => simp
  | succ m ih =>
    have h1 : s + (m + 1) = (s + 1) + m := by omega
    have h2 : m + 1 + n = (m + n) + 1 := by omega
    rw [List.range'_succ, h1, h2, List.range'_succ, List.cons_append, ih (s + 1)]

theorem pairwise_lt_range'_nat : ∀ (n s : Nat), (List.range' s n).Pairwise (· < ·) := by
  intro n
  induction n with
  | zero => intro s; simp
  | succ n ih =>
    intro s
    rw [List.range'_succ]
    constructor
    · intro a ha
      have := List.mem_range'_1.mp ha
      omega
    · exact ih (s + 1)

theorem numberFrom_ids (d : PDoc) (bt : BlockType) (ts : List Str) :
    ∀ gid, (numberFrom d bt gid ts).map Chunk.chunk_id = List.range' gid ts.length := by
  induction ts with
  | nil => intro gid; rfl
  | cons t ts ih =>
    intro gid
    show Chunk.chunk_id (mkChunk d bt t gid) :: (numberFrom d bt (gid + 1) ts).map Chunk.chunk_id =
      List.range' gid (ts.length + 1)
    rw [ih (gid + 1), List.range'_succ]
    rfl

theorem numberFrom_length (d : PDoc) (bt : BlockType) (ts : List Str) (gid : Nat) :
    (numberFrom d bt gid ts).length = ts.length := by
  have h := congrArg List.length (numberFrom_ids d bt ts gid)
  simpa using h

theorem blockChunks_ids (splitter : Str → List Str) (d : PDoc) (b : Str) (gid : Nat) :
    (blockChunks splitter d gid b).map Chunk.chunk_id =
      List.range' gid (blockChunks splitter d gid b).length := by
  unfold blockChunks
  dsimp only
  split
  · rfl
  · rw [numberFrom_ids, numberFrom_length]

theorem blocksChunks_ids (splitter : Str → List Str) (d : PDoc) :
    ∀ (bs : List Str) (gid : Nat),
      (blocksChunks splitter d gid bs).map Chunk.chunk_id =
        List.range' gid (blocksChunks splitter d gid bs).length := by
  intro bs
  induction bs with
  | nil => intro gid; rfl
  | cons b bs ih =>
    intro gid
    unfold blocksChunks
    dsimp only
    rw [List.map_append, blockChunks_ids, ih, List.length_append]
    exact range'_append_one gid _ _

theorem chunkDocsAux_ids (splitter : Str → List Str) :
    ∀ (docs : List PDoc) (gid : Nat),
      (chunkDocsAux splitter gid docs).map Chunk.chunk_id =
        List.range' gid (chunkDocsAux splitter gid docs).length := by
  intro docs
  induction docs with
  | nil => intro gid; rfl
  | cons d ds ih =>
    intro gid
    unfold chunkDocsAux
    dsimp only
    split
    · exact ih gid
    · rw [List.map_append, blocksChunks_ids, ih, List.length_append]
      exact range'_append_one gid _ _

theorem numberFrom_mem (d : PDoc) (bt : BlockType) (ts : List Str) :
    ∀ gid c, c ∈ numberFrom d bt gid ts →
      c.source = d.source ∧ c.source_id = d.source_id ∧ c.page = d.page ∧
      c.chunk_type = bt ∧ c.text ∈ ts := by
  induction ts with
  | nil => intro gid c h; simp [numberFrom] at h
  | cons t ts ih =>
    intro gid c h
    rcases List.mem_cons.mp h with h1 | h1
    · subst h1
      refine ⟨rfl, rfl, rfl, rfl, ?_⟩
      simp [mkChunk]
    · obtain ⟨hs, hsi, hp, ht, hm⟩ := ih (gid + 1) c h1
      exact ⟨hs, hsi, hp, ht, List.mem_cons_of_mem t hm⟩

theorem blockChunks_mem (splitter : Str → List Str) (d : PDoc) (b : Str) (gid : Nat)
    (c : Chunk) (h : c ∈ blockChunks splitter d gid b) :
    c.source = d.source ∧ c.source_id = d.source_id ∧ c.page = d.page ∧
    c.chunk_type = classifyBlock b ∧ (c.text = b ∨ c.text ∈ splitter b) := by
  unfold blockChunks at h
  dsimp only at h
  split at h
  · rcases List.mem_singleton.mp h with h1
    subst h1
    exact ⟨rfl, rfl, rfl, rfl, Or.inl rfl⟩
  · obtain ⟨hs, hsi, hp, ht, hm⟩ := numberFrom_mem d (classifyBlock b) (splitter b) gid c h
    exact ⟨hs, hsi, hp, ht, Or.inr hm⟩

theorem blocksChunks_mem (splitter : Str → List Str) (d : PDoc) :
    ∀ (bs : List Str) (gid : Nat) (c : Chunk), c ∈ blocksChunks splitter d gid bs →
      c.source = d.source ∧ c.source_id = d.source_id ∧ c.page = d.page ∧
      ∃ b ∈ bs, c.chunk_type = classifyBlock b ∧ (c.text = b ∨ c.text ∈ splitter b) := by
  intro bs
  induction bs with
  | nil => intro gid c h; simp [blocksChunks] at h
  | cons b bs ih =>
    intro gid c h
    rcases List.mem_append.mp h with h1 | h1
    · obtain ⟨hs, hsi, hp, ht, hm⟩ := blockChunks_mem splitter d b gid c h1
      exact ⟨hs, hsi, hp, b, List.mem_cons_self b bs, ht, hm⟩
    · obtain ⟨hs, hsi, hp, b2, hb2, ht, hm⟩ :=
        ih (gid + (blockChunks splitter d gid b).length) c h1
      exact ⟨hs, hsi, hp, b2, List.mem_cons_of_mem b hb2, ht, hm⟩

theorem chunkDocsAux_mem (splitter : Str → List Str) :
    ∀ (docs : List PDoc) (gid : Nat) (c : Chunk), c ∈ chunkDocsAux splitter gid docs →
      ∃ d ∈ docs, c.source = d.source ∧ c.source_id = d.source_id ∧ c.page = d.page ∧
        ∃ b ∈ blocksOf (pyNormalize d.page_content),
          c.chunk_type = classifyBlock b ∧ (c.text = b ∨ c.text ∈ splitter b) := by
  intro docs
  induction docs with
  | nil => intro gid c h; simp [chunkDocsAux] at h
  | cons d ds ih =>
    intro gid c h
    unfold chunkDocsAux at h
    dsimp only at h
    split at h
    · obtain ⟨d2, hd2, rest⟩ := ih gid c h
      exact ⟨d2, List.mem_cons_of_mem d hd2, rest⟩
    · rcases List.mem_append.mp h with h1 | h1
      · obtain ⟨hs, hsi, hp, hb⟩ :=
          blocksChunks_mem splitter d (blocksOf (pyNormalize d.page_content)) gid c h1
        exact ⟨d, List.mem_cons_self d ds, hs, hsi, hp, hb⟩
      · obtain ⟨d2, hd2, rest⟩ := ih (gid + _) c h1
        exact ⟨d2, List.mem_cons_of_mem d hd2, rest⟩

/-- C6. Over any document list, splitter and starting state, the chunk ids
emitted by chunk_docs are strictly increasing in emission order, hence
unique, and every emitted chunk inherits source, source_id and page from
its originating page document along with the block type of its block. -/
theorem C6_chunk_ids_and_metadata (splitter : Str → List Str) (docs : List PDoc) :
    ((chunk_docs splitter docs).map Chunk.chunk_id).Pairwise (· < ·) ∧
    ((chunk_docs splitter docs).map Chunk.chunk_id).Nodup ∧
    ∀ c ∈ chunk_docs splitter docs, ∃ d ∈ docs,
      c.source = d.source ∧ c.source_id = d.source_id ∧ c.page = d.page ∧
      ∃ b ∈ blocksOf (pyNormalize d.page_content),
        c.chunk_type = classifyBlock b ∧ (c.text = b ∨ c.text ∈ splitter b) := by
  have hids := chunkDocsAux_ids splitter docs 0
  have hpw : ((chunk_docs splitter docs).map Chunk.chunk_id).Pairwise (· < ·) := by
    rw [chunk_docs, hids]
    exact pairwise_lt_range'_nat _ 0
  refine ⟨hpw, hpw.imp Nat.ne_of_lt, ?_⟩
  intro c hc
  exact chunkDocsAux_mem splitter docs 0 c hc

theorem extractPage_withPage (d : Doc) :
    extractPage (withPage d (extractPage d)) = extractPage d := by
  cases hp : extractPage d with
  | pnum n => rfl
  | punknown =>
    have hscan : scanTextPage d.page_content = .punknown := by
      cases hpg : d.page with
      | none =>
        rw [extractPage, hpg] at hp
        exact hp
      | some pv =>
        cases pv with
        | pint n =>
          rw [extractPage, hpg] at hp
          simp at hp
        | pstr s =>
          rw [extractPage, hpg] at hp
          dsimp only at hp
          by_cases hs : pyIsDigitStr s = true
          · rw [if_pos hs] at hp
            simp at hp
          · rw [if_neg hs] at hp
            exact hp
    have hred : extractPage (withPage d EffPage.punknown) =
        if pyIsDigitStr (pyStr "?") = true then EffPage.pnum (digitsVal (pyStr "?"))
        else scanTextPage d.page_content := rfl
    rw [hred, if_neg (by decide)]
    exact hscan

theorem keyOf_withPage (d : Doc) : keyOf (withPage d (extractPage d)) = keyOf d := by
  unfold keyOf
  rw [extractPage_withPage]
  rfl

theorem dedupLoop_keys (idxs : List Nat) : ∀ (seen : List (Str × EffPage)) (store : List Doc),
    (∀ c ∈ (dedupLoop seen store idxs).2, keyOf c ∉ seen) ∧
    ((dedupLoop seen store idxs).2).Pairwise (fun a b => keyOf a ≠ keyOf b) := by
  induction idxs with
  | nil =>
    intro seen store
    exact ⟨by intro c hc; simp [dedupLoop] at hc, by simp [dedupLoop]⟩
  | cons i rest ih =>
    intro seen store
    unfold dedupLoop
    cases hx : store[i]? with
    | none => exact ih seen store
    | some d =>
      dsimp only
      by_cases hk : (docSid d, extractPage d) ∈ seen
      · rw [if_pos hk]
        exact ih seen store
      · rw [if_neg hk]
        have hkey : keyOf (withPage d (extractPage d)) = (docSid d, extractPage d) :=
          keyOf_withPage d
        obtain ⟨hnotin, hpw⟩ :=
          ih ((docSid d, extractPage d) :: seen) (store.set i (withPage d (extractPage d)))
        constructor
        · intro c hc
          rcases List.mem_cons.mp hc with h1 | h1
          · subst h1
            rw [hkey]
            exact hk
          · intro hmem
            exact hnotin c h1 (List.mem_cons_of_mem _ hmem)
        · constructor
          · intro b hb heq
            exact hnotin b hb (heq ▸ hkey ▸ List.mem_cons_self _ _)
          · exact hpw

theorem dedupLoop_covers (idxs : List Nat) : ∀ (seen : List (Str × EffPage)) (store : List Doc),
    ∀ i ∈ idxs, ∀ d : Doc, store[i]? = some d →
      keyOf d ∈ seen ∨ keyOf d ∈ ((dedupLoop seen store idxs).2).map keyOf := by
  induction idxs with
  | nil =>
    intro seen store i hi
    simp at hi
  | cons j rest ih =>
    intro seen store i hi d hd
    unfold dedupLoop
    cases hx : store[j]? with
    | none =>
      rcases List.mem_cons.mp hi with h1 | h1
      · subst h1
        rw [hd] at hx
        cases hx
      · exact ih seen store i h1 d hd
    | some d0 =>
      dsimp only
      have hkey0 : keyOf d0 = (docSid d0, extractPage d0) := rfl
      by_cases hk : (docSid d0, extractPage d0) ∈ seen
      · rw [if_pos hk]
        rcases List.mem_cons.mp hi with h1 | h1
        · subst h1
          rw [hd] at hx
          injection hx with he
          subst he
          exact Or.inl hk
        · exact ih seen store i h1 d hd
      · rw [if_neg hk]
        have hkey2 : keyOf (withPage d0 (extractPage d0)) = keyOf d0 := keyOf_withPage d0
        have hj : j < store.length := (List.getElem?_eq_some_iff.mp hx).1
        rcases List.mem_cons.mp hi with h1 | h1
        · subst h1
          rw [hd] at hx
          injection hx with he
          subst he
          right
          rw [List.map_cons, ← hkey2]
          exact List.mem_cons_self _ _
        · by_cases hij : j = i
          · subst hij
            rw [hd] at hx
            injection hx with he
            subst he
            have hset : (store.set j (withPage d (extractPage d)))[j]? =
                some (withPage d (extractPage d)) := by
              rw [List.getElem?_set_self]
              exact hj
            rcases ih ((docSid d, extractPage d) :: seen)
                (store.set j (withPage d (extractPage d))) j h1 _ hset with h2 | h2
            · rcases List.mem_cons.mp h2 with h3 | h3
              · right
                rw [List.map_cons, ← hkey2]
                exact List.mem_cons_self _ _
              · left
                rw [hkey2] at h3
                exact h3
            · right
              rw [List.map_cons]
              rw [hkey2] at h2
              exact List.mem_cons_of_mem _ h2
          · have hset : (store.set j (withPage d0 (extractPage d0)))[i]? = store[i]? :=
              List.getElem?_set_ne hij
            rcases ih ((docSid d0, extractPage d0) :: seen)
                (store.set j (withPage d0 (extractPage d0))) i h1 d
                (by rw [hset]; exact hd) with h2 | h2
            · rcases List.mem_cons.mp h2 with h3 | h3
              · right
                have hdq : keyOf d = keyOf (withPage d0 (extractPage d0)) := by
                  rw [h3, ← hkey0, ← hkey2]
                rw [List.map_cons, hdq]
                exact List.mem_cons_self _ _
              · exact Or.inl h3
            · right
              rw [List.map_cons]
              exact List.mem_cons_of_mem _ h2

/-- C7. The dedup loop of ask resolves each selected chunk to its
effective page via _extract_page and keeps exactly one chunk per
(source_id, effective page) pair: the deduplicated list, and hence the
prefix of it whose blocks enter the assembled context, carries pairwise
distinct keys, and the key of every selected chunk survives into the
deduplicated list. -/
theorem C7_dedup_distinct_keys (store : List Doc) (idxs : List Nat) :
    ((dedupLoop [] store idxs).2).Pairwise (fun a b => keyOf a ≠ keyOf b) ∧
    (((dedupLoop [] store idxs).2).take
        (buildCtx 0 (dedupLoop [] store idxs).2).1.length).Pairwise
      (fun a b => keyOf a ≠ keyOf b) ∧
    ∀ i ∈ idxs, ∀ d : Doc, store[i]? = some d →
      keyOf d ∈ ((dedupLoop [] store idxs).2).map keyOf := by
  have h := (dedupLoop_keys idxs [] store).2
  refine ⟨h, List.Pairwise.sublist (List.take_sublist _ _) h, ?_⟩
  intro i hi d hd
  rcases dedupLoop_covers idxs [] store i hi d hd with h2 | h2
  · simp at h2
  · exact h2

/-- C9 counterexample. A concrete run of ask on a one-chunk docstore
succeeds and returns a docstore different from the input one: the dedup
loop reassigned the metadata of the stored chunk, writing the resolved
page marker into the chunk index. -/
theorem C9_counterexample :
    (ask exLlm exQuestion [exDocA] [exHitA] [0] none 8).isSome = true ∧
    (ask exLlm exQuestion [exDocA] [exHitA] [0] none 8).map Prod.fst ≠
      some [exDocA] := by decide

theorem withPage_withPage (d : Doc) :
    withPage (withPage d (extractPage d)) (extractPage (withPage d (extractPage d))) =
      withPage d (extractPage d) := by
  rw [extractPage_withPage]
  rfl

theorem dedupLoop_frame (idxs : List Nat) : ∀ (seen : List (Str × EffPage)) (store : List Doc),
    (dedupLoop seen store idxs).1.length = store.length ∧
    ∀ j : Nat, (dedupLoop seen store idxs).1[j]? = store[j]? ∨
      ∃ d, store[j]? = some d ∧
        (dedupLoop seen store idxs).1[j]? = some (withPage d (extractPage d)) := by
  induction idxs with
  | nil =>
    intro seen store
    exact ⟨rfl, fun j => Or.inl rfl⟩
  | cons i rest ih =>
    intro seen store
    unfold dedupLoop
    cases hx : store[i]? with
    | none => exact ih seen store
    | some d =>
      dsimp only
      by_cases hk : (docSid d, extractPage d) ∈ seen
      · rw [if_pos hk]
        exact ih seen store
      · rw [if_neg hk]
        obtain ⟨hlen, hfr⟩ :=
          ih ((docSid d, extractPage d) :: seen) (store.set i (withPage d (extractPage d)))
        constructor
        · rw [hlen, List.length_set]
        · intro j
          by_cases hij : i = j
          · subst hij
            have hi : i < store.length := (List.getElem?_eq_some_iff.mp hx).1
            have hset : (store.set i (withPage d (extractPage d)))[i]? =
                some (withPage d (extractPage d)) := by
              rw [List.getElem?_set_self]
              exact hi
            rcases hfr i with h1 | h1
            · right
              exact ⟨d, hx, by rw [h1, hset]⟩
            · obtain ⟨d2, hd2, hout⟩ := h1
              rw [hset] at hd2
              right
              refine ⟨d, hx, ?_⟩
              rw [hout]
              have : d2 = withPage d (extractPage d) := by
                injection hd2 with h
                exact h.symm
              rw [this, withPage_withPage]
          · have hset : (store.set i (withPage d (extractPage d)))[j]? = store[j]? :=
              List.getElem?_set_ne hij
            rcases hfr j with h1 | h1
            · left
              rw [h1, hset]
            · obtain ⟨d2, hd2, hout⟩ := h1
              rw [hset] at hd2
              exact Or.inr ⟨d2, hd2, hout⟩

/-- C9 amended. ask is not read-only: when it returns, the chunk docstore
has the same length and every stored chunk is either unchanged or equal to
the original chunk with its page metadata overwritten by the resolved
effective page (the dedup loop reassigns metadata on the search results,
which alias the docstore); the routing index payloads are only read. The
original claim fails because this page write is observable, as the
counterexample shows. -/
theorem C9_frame (llm : Str → Str) (question : Str) (store : List Doc)
    (hits : List RDoc) (candIdx : List Nat) (kOpt : Option Nat) (ragTopK : Nat)
    (store2 : List Doc) (resp : Response)
    (h : ask llm question store hits candIdx kOpt ragTopK = some (store2, resp)) :
    store2.length = store.length ∧
    ∀ j : Nat, store2[j]? = store[j]? ∨
      ∃ d, store[j]? = some d ∧ store2[j]? = some (withPage d (extractPage d)) := by
  unfold ask at h
  dsimp only at h
  cases hsel : selectDocs (stageA [] hits).1 candIdx store (topkOf kOpt ragTopK) with
  | none =>
    rw [hsel] at h
    simp at h
  | some sel =>
    rw [hsel] at h
    simp only [Option.some.injEq, Prod.mk.injEq] at h
    obtain ⟨hstore, _⟩ := h
    obtain ⟨hlen, hfr⟩ := dedupLoop_frame sel.1 [] store
    subst hstore
    exact ⟨hlen, hfr⟩

theorem C9_frame_witness : exC9Store.length = [exDocA].length :=
  (C9_frame exLlm exQuestion [exDocA] [exHitA] [0] none 8 exC9Store exC9Resp (by decide)).1
